import Mathlib

set_option maxRecDepth 8000
set_option autoImplicit false

/- Shallow embedding of `run.py` from the trello-card-snooze repository.

   Conventions used throughout:
   * timestamps (`datetime.utcnow()` readings and card due dates) are `Nat`
     values counting seconds; `timedelta(days=d)` becomes `d * 86400`;
   * a check item's `state` field is `true` for `"complete"` and `false` for
     `"incomplete"`, and a card's `closed` flag is a `Bool`;
   * the label and list ids supplied by the static configuration are
     distinct string constants;
   * writes against the remote Trello store are reified as an `Op` log. -/

namespace TrelloSnooze

namespace LABEL

/-- Label id `LABEL.SNOOZE` from the static configuration. -/
def SNOOZE : String := "label-snooze"

/-- Label id `LABEL.IMPORTANT` from the static configuration. -/
def IMPORTANT : String := "label-important"

/-- Label id `LABEL.TOMORROW` from the static configuration. -/
def TOMORROW : String := "label-tomorrow"

end LABEL

namespace LIST

/-- List id `LIST.PROJECTS` from the static configuration. -/
def PROJECTS : String := "list-projects"

/-- List id `LIST.TOMORROW` from the static configuration. -/
def TOMORROW : String := "list-tomorrow"

end LIST

/-- A board label object (an entry of `card['labels']`): id, display name and
    color, where a `none` color marks a project label. -/
structure LabelInfo where
  id : String
  name : String
  color : Option String
  deriving DecidableEq, Repr

/-- A checklist item: `state` is `true` for `"complete"`. -/
structure CheckItem where
  id : String
  name : String
  state : Bool
  deriving DecidableEq, Repr

/-- A checklist owned by a card. -/
structure Checklist where
  id : String
  name : String
  checkItems : List CheckItem
  deriving DecidableEq, Repr

/-- A Trello card as read from the board snapshot: `idLabels` holds label
    ids, `labels` the full label objects, `due` the optional due timestamp. -/
structure Card where
  id : String
  name : String
  desc : String
  closed : Bool
  due : Option Nat
  idLabels : List String
  labels : List LabelInfo
  idList : String
  checklists : List Checklist
  deriving DecidableEq, Repr

/-- A write issued against the remote store. -/
inductive Op where
  | updateItem (itemId cardId : String) (complete : Bool)
  | deleteItem (itemId checklistId : String)
  | newItem (checklistId : String) (text : String) (checked : Bool)
  | newChecklist (cardId : String) (name : String)
  | deleteChecklist (checklistId : String)
  | moveCard (cardId listId : String)
  | deleteLabelFromCard (labelId cardId : String)
  | deleteCard (cardId : String)
  deriving DecidableEq, Repr

/- ## The `$`-directive scanner (`re.findall`/`re.sub` with pattern `\$\d*`) -/

/-- All matches of the regex `\$\d*` in a character list, in order: every
    `'$'` starts one match consisting of the `'$'` and the maximal digit run
    after it.  Matches of this regex are non-overlapping even when enumerated
    from every `'$'` position, because a match contains no `'$'` past its
    first character; hence this enumeration coincides with `re.findall`. -/
def dollarMatches : List Char → List (List Char)
  | [] => []
  | c :: rest =>
    if c = '$' then ('$' :: rest.takeWhile Char.isDigit) :: dollarMatches rest
    else dollarMatches rest

/-- One pass of `re.sub(r"\$\d*", "", s)`: drop every `'$'` and, while the
    flag records that we are inside a `\$\d*` match, the digit run after it. -/
def dollarStripGo : Bool → List Char → List Char
  | _, [] => []
  | inRun, c :: rest =>
    if c = '$' then dollarStripGo true rest
    else if inRun && c.isDigit then dollarStripGo true rest
    else c :: dollarStripGo false rest

/-- The title with every `\$\d*` occurrence removed. -/
def dollarStrip (s : List Char) : List Char := dollarStripGo false s

/-- Decimal value of a digit run, as computed by Python's `int`. -/
def digitsToNat (l : List Char) : Nat :=
  l.foldl (fun acc c => acc * 10 + (c.toNat - 48)) 0

/-- The day count extracted from the last `\$\d*` match of a title:
    `match[-1].lstrip("$")` parsed as an integer, defaulting to `1` when the
    digit suffix is empty (and, vacuously, when there is no match at all). -/
def dollarDelay (s : List Char) : Nat :=
  match (dollarMatches s).getLast? with
  | none => 1
  | some m =>
    let ds := m.dropWhile fun c => c = '$'
    if ds.isEmpty then 1 else digitsToNat ds

/- ## Card temporal transitions (`handle_dollar_snoozing`, `snooze_card`,
      `wake_card`, `integrity_check` and the per-card body of `main`) -/

/-- `handle_dollar_snoozing`: if the title contains a `\$\d*` match, take the
    last match's digit suffix as a day count (default 1), strip all matches
    from the title, set `due = now + delay days` and append the SNOOZE
    label id. -/
def handle_dollar_snoozing (now : Nat) (card : Card) : Card :=
  match (dollarMatches card.name.data).getLast? with
  | none => card
  | some m =>
    let ds := m.dropWhile fun c => c = '$'
    let delay := if ds.isEmpty then 1 else digitsToNat ds
    { card with
      name := String.mk (dollarStrip card.name.data)
      due := some (now + delay * 86400)
      idLabels := card.idLabels ++ [LABEL.SNOOZE] }

/-- `snooze_card`: close an open card holding the SNOOZE label and a due
    value whose due time has not yet passed. -/
def snooze_card (now : Nat) (card : Card) : Card :=
  match card.due with
  | none => card
  | some card_due =>
    if LABEL.SNOOZE ∉ card.idLabels then card
    else if card.closed then card
    else if now > card_due then card
    else { card with closed := true }

/-- `wake_card`: reopen a card holding the SNOOZE label and a due value whose
    due time has arrived, clearing the due date. -/
def wake_card (now : Nat) (card : Card) : Card :=
  match card.due with
  | none => card
  | some card_due =>
    if LABEL.SNOOZE ∉ card.idLabels then card
    else if now < card_due then card
    else { card with closed := false, due := none }

/-- The reason string produced by `integrity_check` for a broken card. -/
def RESTORE_REASON : String := "Card does have delay label without any date set"

/-- `integrity_check`: a closed card holding the SNOOZE label but no due
    date is broken (returns `false`). -/
def integrity_check (card : Card) : Bool :=
  !(card.closed && decide (LABEL.SNOOZE ∈ card.idLabels) && card.due.isNone)

/-- The repair update issued by `main` for a card failing `integrity_check`:
    clear due, unclose, prefix the title, prepend a note to the description
    and append the IMPORTANT label. -/
def repairCard (card : Card) : Card :=
  { card with
    due := none
    closed := false
    name := "[RESTORED] " ++ card.name
    desc := "**This card was restored**\n" ++ RESTORE_REASON ++ "\n\n" ++ card.desc
    idLabels := card.idLabels ++ [LABEL.IMPORTANT] }

/-- The per-card body of `main`'s first loop: repair broken cards and skip
    them, otherwise apply the dollar directive, then snooze, then wake. -/
def processCard (now : Nat) (card : Card) : Card :=
  if integrity_check card then
    wake_card now (snooze_card now (handle_dollar_snoozing now card))
  else
    repairCard card

/-- The working set of `main`: cards that are open or carry a progress
    label (`not c['closed'] or set(c['idLabels']) & PROGRESS_LABELS`). -/
def workingSet (progressLabels : List String) (data : List Card) : List Card :=
  data.filter fun c => !c.closed || c.idLabels.any fun l => progressLabels.contains l

/- ## The project aggregator (`main`, lines 190-215) -/

/-- The guard of `cards = [c for c in data if any(a['color'] is None ...)]`. -/
def hasColorless (c : Card) : Bool := c.labels.any fun l => l.color.isNone

/-- A card contributes to aggregation when it is not on the Projects list
    and does not carry the SNOOZE label (the two `continue`s of the loop). -/
def contributesTo (c : Card) : Bool :=
  !(c.idList == LIST.PROJECTS) && !(c.idLabels.contains LABEL.SNOOZE)

/-- The colorless labels of a card whose id is `lid` (the label entries for
    which the inner loop appends a pair into `projects[lid]`). -/
def labelHits (lid : String) (ls : List LabelInfo) : List LabelInfo :=
  ls.filter fun l => l.color.isNone && l.id == lid

/-- One `(name, closed)` append per colorless-label hit, scanning `cards`
    in snapshot order; this is the list stored under `projects[lid]`. -/
def aggregateFrom (cards : List Card) (lid : String) : List (String × Bool) :=
  cards.flatMap fun c => (labelHits lid c.labels).map fun _ => (c.name, c.closed)

/-- `projects[lid]` as built by `main` from the snapshot (`[]` when the key
    is absent, i.e. when no card contributed). -/
def aggregate (data : List Card) (lid : String) : List (String × Bool) :=
  aggregateFrom ((data.filter hasColorless).filter contributesTo) lid

/-- The `project_cards` list accumulated by the same loop. -/
def projectCards (data : List Card) : List Card :=
  (data.filter hasColorless).filter fun c => c.idList == LIST.PROJECTS

/-- Whether a card carries a colorless label with id `lid`. -/
def carriesColorless (lid : String) (c : Card) : Bool :=
  c.labels.any fun l => l.color.isNone && l.id == lid

/-- On a card whose label ids are pairwise distinct, the inner label loop
    appends at most one pair for a given label id: one if the card carries
    that colorless label, none otherwise. -/
theorem labelHits_map_const (lid : String) (ls : List LabelInfo) (p : String × Bool)
    (h : (ls.map LabelInfo.id).Nodup) :
    (labelHits lid ls).map (fun _ => p)
      = if ls.any (fun l => l.color.isNone && l.id == lid) then [p] else [] := by
  induction ls with
  | nil => simp [labelHits]
  | cons l rest ih =>
    rw [List.map_cons, List.nodup_cons] at h
    by_cases hp : (l.color.isNone && l.id == lid) = true
    · have hid : l.id = lid := eq_of_beq (Bool.and_eq_true_iff.mp hp).2
      have hrest : rest.filter (fun l => l.color.isNone && l.id == lid) = [] := by
        rw [List.filter_eq_nil_iff]
        intro x hx hpx
        exact h.1 (hid ▸ (eq_of_beq (Bool.and_eq_true_iff.mp hpx).2) ▸
          List.mem_map_of_mem LabelInfo.id hx)
      simp [labelHits, List.filter_cons, hp, hrest, List.any_cons]
    · have hp' : (l.color.isNone && l.id == lid) = false := by simpa using hp
      have hstep : labelHits lid (l :: rest) = labelHits lid rest := by
        simp [labelHits, List.filter_cons, hp']
      rw [hstep, ih h.2]
      simp [List.any_cons, hp']

/-- Aggregation over any card list with duplicate-free per-card label ids is
    one pair per carrying card. -/
theorem aggregateFrom_eq (cards : List Card) (lid : String)
    (h : ∀ c ∈ cards, (c.labels.map LabelInfo.id).Nodup) :
    aggregateFrom cards lid
      = (cards.filter (carriesColorless lid)).map fun c => (c.name, c.closed) := by
  induction cards with
  | nil => simp [aggregateFrom]
  | cons c rest ih =>
    have hc := h c (List.mem_cons_self c rest)
    have hih := ih fun d hd => h d (List.mem_cons_of_mem c hd)
    have hstep : aggregateFrom (c :: rest) lid
        = ((labelHits lid c.labels).map fun _ => (c.name, c.closed))
            ++ aggregateFrom rest lid := by
      simp [aggregateFrom]
    rw [hstep, hih, labelHits_map_const lid c.labels _ hc, List.filter_cons]
    by_cases hcar : carriesColorless lid c = true
    · have hany : (c.labels.any fun l => l.color.isNone && l.id == lid) = true := hcar
      simp [hany, hcar]
    · have hany : (c.labels.any fun l => l.color.isNone && l.id == lid) = false := by
        simpa [carriesColorless] using hcar
      simp [hany, hcar]

/-- C6: the aggregator is a pure function of the snapshot producing, for a
    label id, exactly one `(title, closed)` pair per card carrying that
    colorless label, once cards on the Projects list and cards carrying the
    SNOOZE label are excluded; and a Projects-list or snoozed card on its
    own contributes nothing whatever its completion state. -/
theorem aggregator_one_pair_per_card (data : List Card) (lid : String)
    (h : ∀ c ∈ data, (c.labels.map LabelInfo.id).Nodup) :
    (aggregate data lid
      = (((data.filter hasColorless).filter contributesTo).filter
          (carriesColorless lid)).map fun c => (c.name, c.closed)) ∧
    ∀ c : Card, (c.idList = LIST.PROJECTS ∨ LABEL.SNOOZE ∈ c.idLabels) →
      aggregate [c] lid = [] := by
  constructor
  · refine aggregateFrom_eq _ lid fun c hc => ?_
    exact h c (List.mem_of_mem_filter (List.mem_of_mem_filter hc))
  · intro c hc
    have hct : contributesTo c = false := by
      rcases hc with hc | hc
      · simp [contributesTo, hc]
      · simp [contributesTo, List.contains_iff_exists_mem_beq]
        intro
        exact hc
    rw [aggregate]
    rcases hcl : hasColorless c with _ | _ <;>
      simp [List.filter_cons, hcl, hct, aggregateFrom]

/-- The project label `P` used in concrete aggregation examples. -/
def labelP : LabelInfo := { id := "lab-P", name := "P", color := none }

/-- An open contributing card tagged `P`. -/
def aggCard1 : Card :=
  { id := "card-10", name := "task A", desc := "", closed := false, due := none,
    idLabels := ["lab-P"], labels := [labelP], idList := "list-main", checklists := [] }

/-- A closed contributing card tagged `P`. -/
def aggCard2 : Card := { aggCard1 with id := "card-11", name := "task B", closed := true }

/-- A snoozed card tagged `P`; it must not contribute. -/
def aggCard3 : Card :=
  { aggCard1 with id := "card-12", name := "task C", idLabels := ["lab-P", LABEL.SNOOZE] }

/-- A project-master card tagged `P` on the Projects list; it must not
    contribute. -/
def aggCard4 : Card := { aggCard1 with id := "card-13", name := "P", idList := LIST.PROJECTS }

/-- A concrete snapshot for the aggregation example. -/
def aggSnapshot : List Card := [aggCard1, aggCard2, aggCard3, aggCard4]

/-- Witness for C6 on the concrete snapshot: only the two live non-project
    cards contribute, one pair each, in snapshot order. -/
theorem aggregator_one_pair_per_card_witness :
    ((aggregate aggSnapshot "lab-P"
        = (((aggSnapshot.filter hasColorless).filter contributesTo).filter
            (carriesColorless "lab-P")).map fun c => (c.name, c.closed)) ∧
      ∀ c : Card, (c.idList = LIST.PROJECTS ∨ LABEL.SNOOZE ∈ c.idLabels) →
        aggregate [c] "lab-P" = []) ∧
    aggregate aggSnapshot "lab-P" = [("task A", false), ("task B", true)] :=
  ⟨aggregator_one_pair_per_card aggSnapshot "lab-P" (by decide), by decide⟩

/- ## The checklist reconciler (`main`, lines 219-265) -/

/-- The scan of `projects[label['id']]` performed by the item loop for one
    existing check item: the first pair whose title equals the item text,
    with that pair removed from the list.  (`list.remove((desc, closed))`
    removes the first pair equal to the matched one; since the matched pair
    is the first with a matching title, it is that first equal pair.) -/
def findMatch (name : String) : List (String × Bool) → Option (Bool × List (String × Bool))
  | [] => none
  | (desc, closed) :: rest =>
    if desc = name then some (closed, rest)
    else
      match findMatch name rest with
      | some (c, rest') => some (c, (desc, closed) :: rest')
      | none => none

/-- The two state-fixing conditionals of the item loop: an update is issued
    precisely when the pair's closed flag disagrees with the item state. -/
def updOps (cardId : String) (item : CheckItem) (closed : Bool) : List Op :=
  if closed = true ∧ item.state ≠ true then [Op.updateItem item.id cardId true]
  else if closed = false ∧ item.state ≠ false then [Op.updateItem item.id cardId false]
  else []

/-- The loop over `checklist['checkItems']`: the ops issued for existing
    items (state updates, deletions of unmatched items) together with the
    aggregated pairs left unconsumed afterwards. -/
def reconcileItems (cardId checklistId : String) :
    List CheckItem → List (String × Bool) → List Op × List (String × Bool)
  | [], pairs => ([], pairs)
  | item :: rest, pairs =>
    match findMatch item.name pairs with
    | some (closed, pairs') =>
      let r := reconcileItems cardId checklistId rest pairs'
      (updOps cardId item closed ++ r.1, r.2)
    | none =>
      let r := reconcileItems cardId checklistId rest pairs
      (Op.deleteItem item.id checklistId :: r.1, r.2)

/-- The trailing loop creating one new check item per unconsumed pair. -/
def newItemOps (checklistId : String) (pairs : List (String × Bool)) : List Op :=
  pairs.map fun p => Op.newItem checklistId p.1 p.2

/-- All writes of one reconciliation of a checklist's items against the
    aggregated pair list. -/
def reconcile (cardId checklistId : String) (items : List CheckItem)
    (pairs : List (String × Bool)) : List Op :=
  (reconcileItems cardId checklistId items pairs).1
    ++ newItemOps checklistId (reconcileItems cardId checklistId items pairs).2

/-- Effect of one write on a checklist's item list; `newItem` appends an
    item whose remote-assigned id the model leaves blank (no later op of a
    run targets a freshly created item). -/
def applyOp (items : List CheckItem) : Op → List CheckItem
  | Op.updateItem itemId _ st =>
    items.map fun it => if it.id = itemId then { it with state := st } else it
  | Op.deleteItem itemId _ => items.filter fun it => !(it.id == itemId)
  | Op.newItem _ text checked => items ++ [{ id := "", name := text, state := checked }]
  | _ => items

/-- Effect of a write log on a checklist's item list, applied in order. -/
def applyOps (items : List CheckItem) (ops : List Op) : List CheckItem :=
  ops.foldl applyOp items

/-- The check item created for an unconsumed pair. -/
def mkItem (p : String × Bool) : CheckItem := { id := "", name := p.1, state := p.2 }

/-- Digest of the item loop used to state its correctness: the surviving
    items with corrected states, and the unconsumed pair list. -/
def reconcileFinal : List CheckItem → List (String × Bool) → List CheckItem × List (String × Bool)
  | [], pairs => ([], pairs)
  | item :: rest, pairs =>
    match findMatch item.name pairs with
    | some (closed, pairs') =>
      let r := reconcileFinal rest pairs'
      ({ item with state := closed } :: r.1, r.2)
    | none => reconcileFinal rest pairs

/-- The existing-item id an op targets, if any. -/
def opTarget : Op → Option String
  | Op.updateItem i _ _ => some i
  | Op.deleteItem i _ => some i
  | _ => none

/-- The body of `main`'s project loop for one project-master card: honor
    the first colorless label named like the card that has contributions
    (locating or creating the `@<title>` checklist and reconciling it);
    otherwise delete the `@<title>` checklist if present.
    `freshChecklistId` stands for the id the remote store assigns when a
    new checklist is created; a new checklist starts with no items. -/
def handleProjectCard (contrib : String → List (String × Bool))
    (freshChecklistId : String) (card : Card) : List Op :=
  match card.labels.find? (fun l =>
      l.name == card.name && l.color.isNone && !(contrib l.id).isEmpty) with
  | some l =>
    match card.checklists.find? (fun cl => cl.name == "@" ++ card.name) with
    | some cl => reconcile card.id cl.id cl.checkItems (contrib l.id)
    | none =>
      Op.newChecklist card.id ("@" ++ card.name)
        :: reconcile card.id freshChecklistId [] (contrib l.id)
  | none =>
    match card.checklists.find? (fun cl => cl.name == "@" ++ card.name) with
    | some cl => [Op.deleteChecklist cl.id]
    | none => []

/- ## Reconciler lemmas -/

/-- Removing the matched pair is a permutation step: the scanned list is a
    permutation of the matched pair consed onto the remainder. -/
theorem findMatch_perm (name : String) (ps : List (String × Bool)) :
    ∀ (c : Bool) (ps' : List (String × Bool)),
      findMatch name ps = some (c, ps') → ps.Perm ((name, c) :: ps') := by
  induction ps with
  | nil => intro c ps' h; simp [findMatch] at h
  | cons p rest ih =>
    intro c ps' h
    obtain ⟨d, b⟩ := p
    by_cases hd : d = name
    · rw [findMatch, if_pos hd] at h
      obtain ⟨rfl, rfl⟩ : b = c ∧ rest = ps' := by
        constructor <;> [exact congrArg Prod.fst (Option.some.inj h);
          exact congrArg Prod.snd (Option.some.inj h)]
      subst hd
      exact List.Perm.refl _
    · rw [findMatch, if_neg hd] at h
      cases hfm : findMatch name rest with
      | none => rw [hfm] at h; simp at h
      | some cp =>
        obtain ⟨c0, rest'⟩ := cp
        rw [hfm] at h
        obtain ⟨rfl, rfl⟩ : c0 = c ∧ (d, b) :: rest' = ps' := by
          constructor <;> [exact congrArg Prod.fst (Option.some.inj h);
            exact congrArg Prod.snd (Option.some.inj h)]
        exact ((ih c0 rest' hfm).cons (d, b)).trans (List.Perm.swap (name, c0) (d, b) rest')

/-- The unconsumed pairs computed alongside the ops agree with the digest. -/
theorem reconcileItems_snd (cardId clId : String) (items : List CheckItem) :
    ∀ ps, (reconcileItems cardId clId items ps).2 = (reconcileFinal items ps).2 := by
  induction items with
  | nil => intro ps; simp [reconcileItems, reconcileFinal]
  | cons it rest ih =>
    intro ps
    cases hfm : findMatch it.name ps with
    | none => simp [reconcileItems, reconcileFinal, hfm, ih]
    | some cp =>
      obtain ⟨c, ps'⟩ := cp
      simp [reconcileItems, reconcileFinal, hfm, ih]

/-- An update op issued for an item targets that item's id. -/
theorem opTarget_mem_updOps (cardId : String) (item : CheckItem) (closed : Bool)
    (o : Op) (h : o ∈ updOps cardId item closed) : opTarget o = some item.id := by
  unfold updOps at h
  split at h
  · rw [List.mem_singleton] at h; subst h; rfl
  · split at h
    · rw [List.mem_singleton] at h; subst h; rfl
    · simp at h

/-- Creation ops target no existing item. -/
theorem opTarget_mem_newItemOps (clId : String) (ps : List (String × Bool))
    (o : Op) (h : o ∈ newItemOps clId ps) : opTarget o = none := by
  obtain ⟨p, _, rfl⟩ := List.mem_map.mp h
  rfl

/-- Every op of the item loop targets the id of one of the scanned items. -/
theorem reconcileItems_targets (cardId clId : String) (items : List CheckItem) :
    ∀ ps o, o ∈ (reconcileItems cardId clId items ps).1 →
      ∃ it ∈ items, opTarget o = some it.id := by
  induction items with
  | nil => intro ps o h; simp [reconcileItems] at h
  | cons it rest ih =>
    intro ps o h
    cases hfm : findMatch it.name ps with
    | some cp =>
      obtain ⟨c, ps'⟩ := cp
      rw [reconcileItems, hfm] at h
      rcases List.mem_append.mp h with h | h
      · exact ⟨it, List.mem_cons_self it rest, opTarget_mem_updOps cardId it c o h⟩
      · obtain ⟨it', hit', ho⟩ := ih ps' o h
        exact ⟨it', List.mem_cons_of_mem it hit', ho⟩
    | none =>
      rw [reconcileItems, hfm, List.mem_cons] at h
      rcases h with h | h
      · exact ⟨it, List.mem_cons_self it rest, by rw [h]; rfl⟩
      · obtain ⟨it', hit', ho⟩ := ih ps o h
        exact ⟨it', List.mem_cons_of_mem it hit', ho⟩

/-- Applying a concatenated log applies the two halves in order. -/
theorem applyOps_append (L : List CheckItem) (a b : List Op) :
    applyOps L (a ++ b) = applyOps (applyOps L a) b :=
  List.foldl_append applyOp L a b

/-- Ops that do not target the head item act below it. -/
theorem applyOps_cons_of_not_target (x : CheckItem) (ops : List Op) :
    ∀ L : List CheckItem, (∀ o ∈ ops, opTarget o ≠ some x.id) →
      applyOps (x :: L) ops = x :: applyOps L ops := by
  induction ops with
  | nil => intro L _; rfl
  | cons o rest ih =>
    intro L h
    have hx := h o (List.mem_cons_self o rest)
    have hstep : applyOp (x :: L) o = x :: applyOp L o := by
      cases o with
      | updateItem i cid st =>
        have hne : ¬ x.id = i := fun he => hx (by rw [opTarget, he])
        simp [applyOp, hne]
      | deleteItem i cl =>
        have hne : ¬ x.id = i := fun he => hx (by rw [opTarget, he])
        simp [applyOp, hne]
      | newItem a b c => simp [applyOp]
      | newChecklist a b => rfl
      | deleteChecklist a => rfl
      | moveCard a b => rfl
      | deleteLabelFromCard a b => rfl
      | deleteCard a => rfl
    show applyOps (applyOp (x :: L) o) rest = x :: applyOps (applyOp L o) rest
    rw [hstep]
    exact ih (applyOp L o) fun o' ho' => h o' (List.mem_cons_of_mem o ho')

/-- An update aimed at an id absent from a list leaves the list unchanged. -/
theorem map_update_of_not_mem (i : String) (st : Bool) (L : List CheckItem)
    (h : i ∉ L.map CheckItem.id) :
    (L.map fun it => if it.id = i then { it with state := st } else it) = L := by
  induction L with
  | nil => rfl
  | cons y rest ih =>
    rw [List.map_cons, List.mem_cons] at h
    push_neg at h
    rw [List.map_cons, if_neg fun he => h.1 he.symm, ih h.2]

/-- A deletion aimed at an id absent from a list leaves the list unchanged. -/
theorem filter_ne_of_not_mem (i : String) (L : List CheckItem)
    (h : i ∉ L.map CheckItem.id) :
    (L.filter fun it => !(it.id == i)) = L := by
  rw [List.filter_eq_self]
  intro a ha
  simp only [Bool.not_eq_eq_eq_not, Bool.not_true, beq_eq_false_iff_ne, ne_eq]
  exact fun he => h (he ▸ List.mem_map_of_mem CheckItem.id ha)

/-- Applying the state-fixing ops for the head item corrects exactly its
    state (no-op when the states already agree). -/
theorem applyOps_updOps (cardId : String) (it : CheckItem) (c : Bool)
    (rest : List CheckItem) (h : it.id ∉ rest.map CheckItem.id) :
    applyOps (it :: rest) (updOps cardId it c) = { it with state := c } :: rest := by
  by_cases hs : it.state = c
  · have hnil : updOps cardId it c = [] := by
      cases hc : c <;> simp [updOps, hc ▸ hs]
    rw [hnil]
    show it :: rest = _
    rw [← hs]
  · have hone : updOps cardId it c = [Op.updateItem it.id cardId c] := by
      cases hc : c <;> cases hst : it.state <;> rw [hc, hst] at hs <;>
        simp_all [updOps]
    rw [hone]
    show applyOp (it :: rest) (Op.updateItem it.id cardId c) = _
    rw [applyOp, List.map_cons, if_pos rfl, map_update_of_not_mem it.id c rest h]

/-- Creating the unconsumed pairs appends them, as fresh items, in order. -/
theorem applyOps_newItemOps (clId : String) (ps : List (String × Bool)) :
    ∀ L : List CheckItem, applyOps L (newItemOps clId ps) = L ++ ps.map mkItem := by
  induction ps with
  | nil => intro L; simp [newItemOps, applyOps]
  | cons p rest ih =>
    intro L
    show applyOps (applyOp L (Op.newItem clId p.1 p.2)) (newItemOps clId rest) = _
    rw [ih (applyOp L (Op.newItem clId p.1 p.2))]
    simp [applyOp, mkItem]

/-- Main structural lemma: applying one reconciliation run to a checklist
    whose item ids are pairwise distinct yields the surviving corrected
    items followed by the freshly inserted unconsumed pairs. -/
theorem applyOps_reconcile (cardId clId : String) (items : List CheckItem) :
    ∀ ps, (items.map CheckItem.id).Nodup →
      applyOps items (reconcile cardId clId items ps)
        = (reconcileFinal items ps).1 ++ (reconcileFinal items ps).2.map mkItem := by
  induction items with
  | nil =>
    intro ps _
    rw [reconcile]
    show applyOps [] ([] ++ newItemOps clId ps) = _
    rw [List.nil_append, applyOps_newItemOps clId ps []]
    simp [reconcileFinal]
  | cons it rest ih =>
    intro ps h
    rw [List.map_cons, List.nodup_cons] at h
    cases hfm : findMatch it.name ps with
    | some cp =>
      obtain ⟨c, ps'⟩ := cp
      have hrc : reconcile cardId clId (it :: rest) ps
          = updOps cardId it c ++ reconcile cardId clId rest ps' := by
        simp only [reconcile, reconcileItems, hfm, List.append_assoc]
      rw [hrc, applyOps_append, applyOps_updOps cardId it c rest h.1]
      have hnt : ∀ o ∈ reconcile cardId clId rest ps',
          opTarget o ≠ some ({ it with state := c } : CheckItem).id := by
        intro o ho
        rcases List.mem_append.mp ho with ho | ho
        · obtain ⟨it', hit', hoo⟩ := reconcileItems_targets cardId clId rest ps' o ho
          rw [hoo]
          intro he
          exact h.1 ((Option.some.inj he) ▸ List.mem_map_of_mem CheckItem.id hit')
        · rw [opTarget_mem_newItemOps clId _ o ho]
          exact fun he => Option.noConfusion he
      rw [applyOps_cons_of_not_target _ _ rest hnt, ih ps' h.2]
      simp [reconcileFinal, hfm]
    | none =>
      have hrc : reconcile cardId clId (it :: rest) ps
          = Op.deleteItem it.id clId :: reconcile cardId clId rest ps := by
        simp only [reconcile, reconcileItems, hfm, List.cons_append]
      rw [hrc]
      show applyOps (applyOp (it :: rest) (Op.deleteItem it.id clId)) _ = _
      have hdel : applyOp (it :: rest) (Op.deleteItem it.id clId) = rest := by
        rw [applyOp, List.filter_cons]
        simp only [beq_self_eq_true, Bool.not_true, Bool.false_eq_true, if_false]
        exact filter_ne_of_not_mem it.id rest h.1
      rw [hdel, ih ps h.2]
      simp [reconcileFinal, hfm]

/-- The digest of one run is a permutation of the aggregated pairs: every
    surviving item carries a consumed pair's title and closed flag, and the
    unconsumed pairs make up the rest. -/
theorem reconcileFinal_perm (items : List CheckItem) :
    ∀ ps, ((reconcileFinal items ps).1.map (fun it => (it.name, it.state))
        ++ (reconcileFinal items ps).2).Perm ps := by
  induction items with
  | nil => intro ps; simp [reconcileFinal]
  | cons it rest ih =>
    intro ps
    cases hfm : findMatch it.name ps with
    | some cp =>
      obtain ⟨c, ps'⟩ := cp
      have hp := findMatch_perm it.name ps c ps' hfm
      simp only [reconcileFinal, hfm, List.map_cons, List.cons_append]
      exact ((ih ps').cons (it.name, c)).trans hp.symm
    | none =>
      simp only [reconcileFinal, hfm]
      exact ih ps

/-- C1: the reconciler converges the checklist to the aggregated
    `(title, closed)` list with title equality as the join key: the final
    item list — matched items updated iff their state disagreed with the
    consumed pair (remove-one multiset semantics), unmatched items deleted,
    unconsumed pairs inserted with their closed flag — carries exactly the
    aggregated multiset of `(title, closed)` pairs. -/
theorem reconciler_convergence (cardId clId : String) (items : List CheckItem)
    (ps : List (String × Bool)) (h : (items.map CheckItem.id).Nodup) :
    ((applyOps items (reconcile cardId clId items ps)).map
        (fun it => (it.name, it.state)) : Multiset (String × Bool))
      = (ps : Multiset (String × Bool)) := by
  rw [applyOps_reconcile cardId clId items ps h, List.map_append, List.map_map]
  have hmk : ∀ l : List (String × Bool),
      (l.map ((fun it => (it.name, it.state)) ∘ mkItem)) = l := by
    intro l
    induction l with
    | nil => rfl
    | cons p rest ih =>
      obtain ⟨a, b⟩ := p
      simp [mkItem, Function.comp, ih]
  rw [hmk, Multiset.coe_eq_coe]
  exact reconcileFinal_perm items ps

/-- The existing checklist of the specification's convergence example:
    `task A` complete, `task C` incomplete. -/
def reconItemsEx : List CheckItem :=
  [{ id := "item-1", name := "task A", state := true },
   { id := "item-2", name := "task C", state := false }]

/-- The aggregated pairs of the specification's convergence example. -/
def reconPairsEx : List (String × Bool) := [("task A", false), ("task B", true)]

/-- Witness for C1 on the specification's example: `task A` is flipped to
    incomplete, `task C` is deleted, `task B` is created complete, and the
    final item multiset equals the aggregated pairs. -/
theorem reconciler_convergence_witness :
    (((applyOps reconItemsEx (reconcile "pcard" "chk" reconItemsEx reconPairsEx)).map
        (fun it => (it.name, it.state)) : Multiset (String × Bool))
      = (reconPairsEx : Multiset (String × Bool))) ∧
    reconcile "pcard" "chk" reconItemsEx reconPairsEx
      = [Op.updateItem "item-1" "pcard" false, Op.deleteItem "item-2" "chk",
         Op.newItem "chk" "task B" true] :=
  ⟨reconciler_convergence "pcard" "chk" reconItemsEx reconPairsEx (by decide), by decide⟩

/-- Fixing the head item's state to the consumed flag silences both
    state-fixing conditionals. -/
theorem updOps_self (cardId : String) (it : CheckItem) (c : Bool) :
    updOps cardId { it with state := c } c = [] := by
  cases c <;> simp [updOps]

/-- Re-scanning the surviving corrected items against the original pairs
    issues no ops and consumes exactly the pairs consumed the first time. -/
theorem reconcileItems_final_self (cardId clId : String) (items : List CheckItem) :
    ∀ ps, reconcileItems cardId clId (reconcileFinal items ps).1 ps
      = ([], (reconcileFinal items ps).2) := by
  induction items with
  | nil => intro ps; simp [reconcileFinal, reconcileItems]
  | cons it rest ih =>
    intro ps
    cases hfm : findMatch it.name ps with
    | some cp =>
      obtain ⟨c, ps'⟩ := cp
      simp [reconcileFinal, hfm, reconcileItems, updOps_self, ih ps']
    | none =>
      simp only [reconcileFinal, hfm]
      exact ih ps

/-- Scanning the freshly inserted items against the pairs they were made
    from issues no ops and consumes everything. -/
theorem reconcileItems_mkItems (cardId clId : String) (ps : List (String × Bool)) :
    reconcileItems cardId clId (ps.map mkItem) ps = ([], []) := by
  induction ps with
  | nil => simp [reconcileItems]
  | cons p rest ih =>
    obtain ⟨d, b⟩ := p
    have hfm : findMatch (mkItem (d, b)).name ((d, b) :: rest) = some (b, rest) := by
      simp [findMatch, mkItem]
    have hupd : updOps cardId (mkItem (d, b)) b = [] := by
      cases b <;> simp [updOps, mkItem]
    simp [reconcileItems, hfm, hupd, ih]

/-- The item loop over a concatenation scans the first block, then the
    second against the pairs the first left over. -/
theorem reconcileItems_append (cardId clId : String) (A : List CheckItem) :
    ∀ (B : List CheckItem) (ps : List (String × Bool)),
      reconcileItems cardId clId (A ++ B) ps
        = ((reconcileItems cardId clId A ps).1
            ++ (reconcileItems cardId clId B (reconcileItems cardId clId A ps).2).1,
           (reconcileItems cardId clId B (reconcileItems cardId clId A ps).2).2) := by
  induction A with
  | nil => intro B ps; simp [reconcileItems]
  | cons it rest ih =>
    intro B ps
    cases hfm : findMatch it.name ps with
    | some cp =>
      obtain ⟨c, ps'⟩ := cp
      simp [reconcileItems, hfm, ih, List.append_assoc]
    | none => simp [reconcileItems, hfm, ih]

/-- C4: a second reconciliation run on the same aggregated pairs, starting
    from the checklist state the first run produced, issues zero
    create/update/delete operations. -/
theorem reconciler_idempotent (cardId clId : String) (items : List CheckItem)
    (ps : List (String × Bool)) (h : (items.map CheckItem.id).Nodup) :
    reconcile cardId clId (applyOps items (reconcile cardId clId items ps)) ps = [] := by
  rw [applyOps_reconcile cardId clId items ps h]
  rw [reconcile, reconcileItems_append, reconcileItems_final_self]
  simp [reconcileItems_mkItems, newItemOps]

/-- Witness for C4 on the specification's example: the first run issues
    three writes, the second run issues none. -/
theorem reconciler_idempotent_witness :
    reconcile "pcard" "chk"
        (applyOps reconItemsEx (reconcile "pcard" "chk" reconItemsEx reconPairsEx))
        reconPairsEx = [] ∧
    reconcile "pcard" "chk" reconItemsEx reconPairsEx ≠ [] :=
  ⟨reconciler_idempotent "pcard" "chk" reconItemsEx reconPairsEx (by decide), by decide⟩

/-- C7: for a project-master card on which no colorless label named like
    the card has contributing cards this run (covering both "no matching
    self-label" and "self-label without contributions"), the `@<title>`
    checklist is deleted when present, and nothing is written otherwise. -/
theorem orphan_checklist_deleted (contrib : String → List (String × Bool))
    (freshId : String) (card : Card)
    (h : ∀ l ∈ card.labels, l.name = card.name → l.color = none → contrib l.id = []) :
    handleProjectCard contrib freshId card
      = (card.checklists.find? fun cl => cl.name == "@" ++ card.name).elim
          [] (fun cl => [Op.deleteChecklist cl.id]) := by
  have hnone : card.labels.find? (fun l =>
      l.name == card.name && l.color.isNone && !(contrib l.id).isEmpty) = none := by
    rw [List.find?_eq_none]
    intro l hl hp
    rw [Bool.and_eq_true, Bool.and_eq_true] at hp
    obtain ⟨⟨h1, h2⟩, h3⟩ := hp
    have h2' : l.color = none := Option.isNone_iff_eq_none.mp h2
    rw [h l hl (eq_of_beq h1) h2'] at h3
    simp at h3
  cases hcl : card.checklists.find? (fun cl => cl.name == "@" ++ card.name) with
  | none => simp [handleProjectCard, hnone, hcl]
  | some cl => simp [handleProjectCard, hnone, hcl]

/-- The self-named project label of the orphan example. -/
def orphanLabel : LabelInfo := { id := "lab-P", name := "P", color := none }

/-- The existing `@P` checklist of the orphan example. -/
def orphanChecklist : Checklist := { id := "cl-orphan", name := "@P", checkItems := [] }

/-- A project-master card `P` whose self-label has no contributions. -/
def orphanCardEx : Card :=
  { id := "card-20", name := "P", desc := "", closed := false, due := none,
    idLabels := ["lab-P"], labels := [orphanLabel], idList := LIST.PROJECTS,
    checklists := [orphanChecklist] }

/-- Witness for C7: with no contributions anywhere, the `@P` checklist of
    the concrete project-master card is deleted entirely. -/
theorem orphan_checklist_deleted_witness :
    handleProjectCard (fun _ => []) "cl-new" orphanCardEx
      = [Op.deleteChecklist "cl-orphan"] := by
  rw [orphan_checklist_deleted (fun _ => []) "cl-new" orphanCardEx
    (fun l _ _ _ => rfl)]
  decide

/- ## The tomorrow-scheduling pass (`main`, lines 171-186) -/

/-- Per-card effect of the tomorrow pass: a card carrying the TOMORROW
    label is moved to the Tomorrow list and `list.remove` drops the first
    occurrence of the label id. -/
def tomorrowStep (card : Card) : Card :=
  if LABEL.TOMORROW ∈ card.idLabels then
    { card with idList := LIST.TOMORROW, idLabels := card.idLabels.erase LABEL.TOMORROW }
  else card

/-- Writes issued per card by the tomorrow pass. -/
def tomorrowOps (card : Card) : List Op :=
  if LABEL.TOMORROW ∈ card.idLabels then
    [Op.moveCard card.id LIST.TOMORROW, Op.deleteLabelFromCard LABEL.TOMORROW card.id]
  else []

/-- The tomorrow pass over the working set: it runs only when the local
    wall-clock time `t` (seconds since midnight) satisfies
    `time(1,0,0) <= t <= time(2,0,0)`; otherwise nothing is touched. -/
def tomorrow_pass (localTime : Nat) (cards : List Card) : List Card × List Op :=
  if 3600 ≤ localTime ∧ localTime ≤ 7200 then
    (cards.map tomorrowStep, cards.flatMap tomorrowOps)
  else (cards, [])

/-- C8: inside the 01:00–02:00 window every card carrying the TOMORROW
    label is moved to the Tomorrow list with the label removed (its id list
    being duplicate-free); outside the window the pass leaves every card
    untouched and writes nothing, regardless of the cards' state. -/
theorem tomorrow_window_only (t : Nat) (cards : List Card) (c : Card)
    (h : c.idLabels.Nodup) :
    (3600 ≤ t ∧ t ≤ 7200 →
      (tomorrow_pass t cards).1 = cards.map tomorrowStep ∧
      (tomorrow_pass t cards).2 = cards.flatMap tomorrowOps ∧
      (LABEL.TOMORROW ∈ c.idLabels →
        (tomorrowStep c).idList = LIST.TOMORROW ∧
        LABEL.TOMORROW ∉ (tomorrowStep c).idLabels ∧
        tomorrowOps c = [Op.moveCard c.id LIST.TOMORROW,
          Op.deleteLabelFromCard LABEL.TOMORROW c.id])) ∧
    (¬(3600 ≤ t ∧ t ≤ 7200) → tomorrow_pass t cards = (cards, [])) := by
  constructor
  · intro hw
    refine ⟨by simp [tomorrow_pass, hw], by simp [tomorrow_pass, hw], fun hm => ?_⟩
    refine ⟨by simp [tomorrowStep, hm], ?_, by simp [tomorrowOps, hm]⟩
    simp only [tomorrowStep, hm, if_true, if_pos]
    exact h.not_mem_erase
  · intro hw
    simp [tomorrow_pass, hw]

/-- A card carrying the TOMORROW label for the C8 witness. -/
def tomorrowCardEx : Card :=
  { id := "card-30", name := "tm", desc := "", closed := false, due := none,
    idLabels := [LABEL.TOMORROW], labels := [], idList := "list-main", checklists := [] }

/-- Witness for C8: at 01:00 the concrete card is moved and its label
    dropped; at 00:00 the pass does nothing at all. -/
theorem tomorrow_window_only_witness :
    (tomorrowStep tomorrowCardEx).idList = LIST.TOMORROW ∧
    LABEL.TOMORROW ∉ (tomorrowStep tomorrowCardEx).idLabels ∧
    tomorrow_pass 3600 [tomorrowCardEx]
      = ([tomorrowStep tomorrowCardEx], tomorrowOps tomorrowCardEx) ∧
    tomorrow_pass 0 [tomorrowCardEx] = ([tomorrowCardEx], []) := by
  have hin := (tomorrow_window_only 3600 [tomorrowCardEx] tomorrowCardEx (by decide)).1
    (by omega)
  have hout := (tomorrow_window_only 0 [tomorrowCardEx] tomorrowCardEx (by decide)).2
    (by omega)
  exact ⟨(hin.2.2 (by decide)).1, (hin.2.2 (by decide)).2.1, by decide, hout⟩

/- ## Housekeeping (`main`, lines 268-273) -/

/-- The reserved sentinel title of the external watchdog card. -/
def SENTINEL_TITLE : String := "[CHECK] Problem with Trello script"

/-- The final loop of `main`.  At this point `cards` has been rebound (line
    190) to the cards having at least one colorless label, so only those are
    scanned; the first sentinel-titled card among them is deleted and the
    loop breaks. -/
def housekeeping (data : List Card) : List Op :=
  match (data.filter hasColorless).find? (fun c => c.name == SENTINEL_TITLE) with
  | some c => [Op.deleteCard c.id]
  | none => []

/-- A sentinel-titled card with no labels at all. -/
def sentinelNoLabelEx : Card :=
  { id := "card-40", name := SENTINEL_TITLE, desc := "", closed := false, due := none,
    idLabels := [], labels := [], idList := "list-main", checklists := [] }

/-- Counterexample to C9 as stated: a sentinel watchdog card that carries
    no (colorless) label is present on the board, yet the run deletes
    nothing, because the housekeeping loop only scans the colorless-label
    filtered card list rebound for the projects stage. -/
theorem housekeeping_counterexample :
    sentinelNoLabelEx ∈ [sentinelNoLabelEx] ∧
    sentinelNoLabelEx.name = SENTINEL_TITLE ∧
    housekeeping [sentinelNoLabelEx] = [] :=
  ⟨List.mem_singleton_self _, rfl, by decide⟩

/-- C9 (amended): when a sentinel-titled card with at least one colorless
    label is in the snapshot, the run deletes one such card; at most one
    card is deleted per run, and every deletion targets a sentinel-titled
    card with a colorless label. -/
theorem housekeeping_amended (data : List Card) (c : Card)
    (hc : c ∈ data) (hcol : hasColorless c = true) (hn : c.name = SENTINEL_TITLE) :
    housekeeping data ≠ [] ∧
    (housekeeping data).length ≤ 1 ∧
    ∀ o ∈ housekeeping data, ∃ d ∈ data,
      hasColorless d = true ∧ d.name = SENTINEL_TITLE ∧ o = Op.deleteCard d.id := by
  have hmem : c ∈ data.filter hasColorless := List.mem_filter.mpr ⟨hc, hcol⟩
  obtain ⟨x, hx⟩ : ∃ x,
      (data.filter hasColorless).find? (fun c => c.name == SENTINEL_TITLE) = some x := by
    rw [← Option.isSome_iff_exists, List.find?_isSome]
    exact ⟨c, hmem, by simp [hn]⟩
  have hxprop := List.find?_some hx
  have hxmem := List.mem_of_find?_eq_some hx
  refine ⟨by simp [housekeeping, hx], by simp [housekeeping, hx], fun o ho => ?_⟩
  simp only [housekeeping, hx, List.mem_singleton] at ho
  subst ho
  exact ⟨x, (List.mem_filter.mp hxmem).1, (List.mem_filter.mp hxmem).2,
    eq_of_beq hxprop, rfl⟩

/-- A sentinel-titled card carrying a colorless label. -/
def sentinelLabeledEx : Card :=
  { sentinelNoLabelEx with id := "card-41", labels := [labelP], idLabels := ["lab-P"] }

/-- Witness for C9 (amended): the colorless-labelled sentinel card is the
    one deleted; exactly one write is issued. -/
theorem housekeeping_amended_witness :
    (housekeeping [sentinelLabeledEx] ≠ [] ∧
      (housekeeping [sentinelLabeledEx]).length ≤ 1 ∧
      ∀ o ∈ housekeeping [sentinelLabeledEx], ∃ d ∈ [sentinelLabeledEx],
        hasColorless d = true ∧ d.name = SENTINEL_TITLE ∧ o = Op.deleteCard d.id) ∧
    housekeeping [sentinelLabeledEx] = [Op.deleteCard "card-41"] :=
  ⟨housekeeping_amended [sentinelLabeledEx] sentinelLabeledEx (by decide) (by decide) rfl,
   by decide⟩

/- ## Lemmas about the dollar scanner -/

/-- The title has some `\$\d*` match exactly when it contains a `'$'`. -/
theorem dollarMatches_ne_nil_iff (l : List Char) : dollarMatches l ≠ [] ↔ '$' ∈ l := by
  induction l with
  | nil => simp [dollarMatches]
  | cons c rest ih =>
    by_cases hc : c = '$'
    · subst hc; simp [dollarMatches]
    · simp [dollarMatches, hc, ih, List.mem_cons, Ne.symm hc]

/-- Stripping the `\$\d*` matches leaves no `'$'` behind. -/
theorem dollar_not_mem_dollarStripGo (l : List Char) :
    ∀ b : Bool, '$' ∉ dollarStripGo b l := by
  induction l with
  | nil => intro b; simp [dollarStripGo]
  | cons c rest ih =>
    intro b
    by_cases hc : c = '$'
    · subst hc; simpa [dollarStripGo] using ih true
    · by_cases hd : (b && c.isDigit) = true
      · simpa [dollarStripGo, hc, hd] using ih true
      · simpa [dollarStripGo, hc, hd, List.mem_cons, Ne.symm hc] using ih false

/- ## Claim theorems: temporal card transitions -/

/-- C2: for a card carrying the SNOOZE label with a due timestamp set, the
    snooze step closes it when it is not already closed and `now ≤ due`; the
    wake step, when `now ≥ due`, reopens it and clears due while leaving the
    SNOOZE label in place; and the snooze step never closes a card whose due
    has already elapsed (`now > due`). -/
theorem snooze_wake_transitions (now d : Nat) (card : Card)
    (hlab : LABEL.SNOOZE ∈ card.idLabels) (hdue : card.due = some d) :
    (card.closed = false → now ≤ d →
      snooze_card now card = { card with closed := true }) ∧
    (d ≤ now →
      wake_card now card = { card with closed := false, due := none } ∧
      LABEL.SNOOZE ∈ (wake_card now card).idLabels) ∧
    (d < now → snooze_card now card = card) := by
  refine ⟨fun hcl hle => ?_, fun hge => ⟨?_, ?_⟩, fun hlt => ?_⟩
  · simp [snooze_card, hdue, hlab, hcl, Nat.not_lt.mpr hle]
  · simp [wake_card, hdue, hlab, Nat.not_lt.mpr hge]
  · simp [wake_card, hdue, hlab, Nat.not_lt.mpr hge]
  · simp [snooze_card, hdue, hlab, hlt]

/-- A concrete open snoozed card used to instantiate `snooze_wake_transitions`. -/
def snoozeCardEx : Card :=
  { id := "card-2", name := "task", desc := "", closed := false, due := some 100,
    idLabels := [LABEL.SNOOZE], labels := [], idList := "list-main", checklists := [] }

/-- Witness for C2 at a concrete card with `due = 100`: at `now = 100` both
    branch conclusions are available, and evaluating the code there shows the
    snooze step closing the card and the wake step reopening it. -/
theorem snooze_wake_transitions_witness :
    ((snoozeCardEx.closed = false → 100 ≤ 100 →
        snooze_card 100 snoozeCardEx = { snoozeCardEx with closed := true }) ∧
      (100 ≤ 100 →
        wake_card 100 snoozeCardEx = { snoozeCardEx with closed := false, due := none } ∧
        LABEL.SNOOZE ∈ (wake_card 100 snoozeCardEx).idLabels) ∧
      (100 < 100 → snooze_card 100 snoozeCardEx = snoozeCardEx)) ∧
    (snooze_card 99 snoozeCardEx).closed = true ∧
    (wake_card 101 snoozeCardEx).due = none ∧
    snooze_card 101 snoozeCardEx = snoozeCardEx :=
  ⟨snooze_wake_transitions 100 100 snoozeCardEx (by decide) rfl,
   by decide, by decide, by decide⟩

/-- C3 (amended only in presentation): on a title containing a `'$'`
    (equivalently, some `\$\d*` match), the dollar handler strips every
    occurrence from the title (leaving no `'$'`), sets due to now plus the
    last occurrence's day count (default 1) in days, and adds the SNOOZE
    label. -/
theorem dollar_directive (now : Nat) (card : Card) (h : '$' ∈ card.name.data) :
    (handle_dollar_snoozing now card).name = String.mk (dollarStrip card.name.data) ∧
    '$' ∉ (handle_dollar_snoozing now card).name.data ∧
    (handle_dollar_snoozing now card).due =
      some (now + dollarDelay card.name.data * 86400) ∧
    LABEL.SNOOZE ∈ (handle_dollar_snoozing now card).idLabels := by
  have hne := (dollarMatches_ne_nil_iff card.name.data).mpr h
  obtain ⟨m, hm⟩ := Option.isSome_iff_exists.mp (List.getLast?_isSome.mpr hne)
  refine ⟨?_, ?_, ?_, ?_⟩
  · simp [handle_dollar_snoozing, hm]
  · simpa [handle_dollar_snoozing, hm, dollarStrip]
      using dollar_not_mem_dollarStripGo card.name.data false
  · simp [handle_dollar_snoozing, dollarDelay, hm]
  · simp [handle_dollar_snoozing, hm]

/-- The sample card `"Buy milk $3"` from the specification. -/
def dollarCardEx1 : Card :=
  { id := "card-3", name := "Buy milk $3", desc := "", closed := false, due := none,
    idLabels := [], labels := [], idList := "list-main", checklists := [] }

/-- The sample card `"Call back $"` from the specification. -/
def dollarCardEx2 : Card :=
  { dollarCardEx1 with id := "card-4", name := "Call back $" }

/-- The sample card `"$1 foo $5"` from the specification. -/
def dollarCardEx3 : Card :=
  { dollarCardEx1 with id := "card-5", name := "$1 foo $5" }

/-- Witness for C3 on the three titles of the specification: `"Buy milk $3"`
    becomes `"Buy milk "` with a 3-day delay, `"Call back $"` defaults to 1
    day, and `"$1 foo $5"` honors only the last value 5 with both
    occurrences stripped. -/
theorem dollar_directive_witness :
    ('$' ∈ dollarCardEx1.name.data ∧
      ((handle_dollar_snoozing 0 dollarCardEx1).name =
          String.mk (dollarStrip dollarCardEx1.name.data) ∧
        '$' ∉ (handle_dollar_snoozing 0 dollarCardEx1).name.data ∧
        (handle_dollar_snoozing 0 dollarCardEx1).due =
          some (0 + dollarDelay dollarCardEx1.name.data * 86400) ∧
        LABEL.SNOOZE ∈ (handle_dollar_snoozing 0 dollarCardEx1).idLabels)) ∧
    dollarDelay dollarCardEx1.name.data = 3 ∧
    (handle_dollar_snoozing 0 dollarCardEx1).name = "Buy milk " ∧
    dollarDelay dollarCardEx2.name.data = 1 ∧
    (handle_dollar_snoozing 0 dollarCardEx2).due = some (1 * 86400) ∧
    dollarDelay dollarCardEx3.name.data = 5 ∧
    (handle_dollar_snoozing 0 dollarCardEx3).name = " foo " :=
  ⟨⟨by decide, dollar_directive 0 dollarCardEx1 (by decide)⟩,
   by decide, by decide, by decide, by decide, by decide, by decide⟩

/-- C5 (amended): integrity repair on a closed SNOOZE-labelled card without
    a due date clears due, uncloses, prefixes the title with `[RESTORED] `,
    prepends (not appends) an explanatory note to the description, appends
    the IMPORTANT label while keeping SNOOZE, and skips every other per-card
    step this run (`processCard` reduces to the repair alone). -/
theorem integrity_repair (now : Nat) (card : Card)
    (h1 : card.closed = true) (h2 : LABEL.SNOOZE ∈ card.idLabels)
    (h3 : card.due = none) :
    processCard now card = repairCard card ∧
    (processCard now card).due = none ∧
    (processCard now card).closed = false ∧
    (processCard now card).name = "[RESTORED] " ++ card.name ∧
    (processCard now card).desc =
      "**This card was restored**\n" ++ RESTORE_REASON ++ "\n\n" ++ card.desc ∧
    LABEL.IMPORTANT ∈ (processCard now card).idLabels ∧
    LABEL.SNOOZE ∈ (processCard now card).idLabels := by
  have hic : integrity_check card = false := by
    simp [integrity_check, h1, h2, h3, Option.isNone_iff_eq_none]
  refine ⟨?_, ?_, ?_, ?_, ?_, ?_, ?_⟩ <;> simp [processCard, hic, repairCard, h2]

/-- A concrete broken card: closed, SNOOZE label, no due date. -/
def brokenCardEx : Card :=
  { id := "card-7", name := "t", desc := "orig", closed := true, due := none,
    idLabels := [LABEL.SNOOZE], labels := [], idList := "list-main", checklists := [] }

/-- Counterexample to C5 as stated: the explanatory note is not appended to
    the description — the original description `"orig"` is not a prefix of
    the repaired description, because the note is prepended in front of it. -/
theorem integrity_repair_desc_counterexample :
    brokenCardEx.closed = true ∧ LABEL.SNOOZE ∈ brokenCardEx.idLabels ∧
    brokenCardEx.due = none ∧
    (processCard 0 brokenCardEx).desc =
      "**This card was restored**\nCard does have delay label without any date set\n\norig" ∧
    ¬ ("orig".data <+: (processCard 0 brokenCardEx).desc.data) := by
  exact ⟨rfl, by decide, rfl, by decide, by decide⟩

/-- Witness for C5 (amended) on the concrete broken card. -/
theorem integrity_repair_witness :
    (processCard 0 brokenCardEx = repairCard brokenCardEx ∧
      (processCard 0 brokenCardEx).due = none ∧
      (processCard 0 brokenCardEx).closed = false ∧
      (processCard 0 brokenCardEx).name = "[RESTORED] " ++ brokenCardEx.name ∧
      (processCard 0 brokenCardEx).desc =
        "**This card was restored**\n" ++ RESTORE_REASON ++ "\n\n" ++ brokenCardEx.desc ∧
      LABEL.IMPORTANT ∈ (processCard 0 brokenCardEx).idLabels ∧
      LABEL.SNOOZE ∈ (processCard 0 brokenCardEx).idLabels) ∧
    (processCard 0 brokenCardEx).name = "[RESTORED] t" :=
  ⟨integrity_repair 0 brokenCardEx rfl (by decide) rfl, by decide⟩

/-- C10: when a card already carrying SNOOZE has a dollar directive in its
    title, the handler appends SNOOZE unconditionally, so the written-back
    label list holds the SNOOZE id one more time than before — at least
    twice. -/
theorem dollar_duplicates_snooze_label (now : Nat) (card : Card)
    (h1 : LABEL.SNOOZE ∈ card.idLabels) (h2 : '$' ∈ card.name.data) :
    (handle_dollar_snoozing now card).idLabels.count LABEL.SNOOZE
        = card.idLabels.count LABEL.SNOOZE + 1 ∧
    2 ≤ (handle_dollar_snoozing now card).idLabels.count LABEL.SNOOZE := by
  have hne := (dollarMatches_ne_nil_iff card.name.data).mpr h2
  obtain ⟨m, hm⟩ := Option.isSome_iff_exists.mp (List.getLast?_isSome.mpr hne)
  have hl : (handle_dollar_snoozing now card).idLabels
      = card.idLabels ++ [LABEL.SNOOZE] := by
    simp [handle_dollar_snoozing, hm]
  rw [hl, List.count_append]
  have hpos : 0 < card.idLabels.count LABEL.SNOOZE := List.count_pos_iff.mpr h1
  have hone : List.count LABEL.SNOOZE [LABEL.SNOOZE] = 1 := by decide
  omega

/-- A card that already carries SNOOZE and a dollar directive. -/
def dollarSnoozedCardEx : Card :=
  { id := "card-8", name := "chore $2", desc := "", closed := false, due := none,
    idLabels := [LABEL.SNOOZE], labels := [], idList := "list-main", checklists := [] }

/-- Witness for C10: the concrete card ends up with the SNOOZE id twice. -/
theorem dollar_duplicates_snooze_label_witness :
    ((handle_dollar_snoozing 0 dollarSnoozedCardEx).idLabels.count LABEL.SNOOZE
        = dollarSnoozedCardEx.idLabels.count LABEL.SNOOZE + 1 ∧
      2 ≤ (handle_dollar_snoozing 0 dollarSnoozedCardEx).idLabels.count LABEL.SNOOZE) ∧
    (handle_dollar_snoozing 0 dollarSnoozedCardEx).idLabels
      = [LABEL.SNOOZE, LABEL.SNOOZE] :=
  ⟨dollar_duplicates_snooze_label 0 dollarSnoozedCardEx (by decide) (by decide),
   by decide⟩

end TrelloSnooze
